import Mathlib

set_option linter.unusedVariables false

/-!
# Shallow embedding of the rxml lexer/parser pipeline

Embeds `src/parsetag.rs`, `src/parsedoc.rs`, `src/api.rs` and
`src/error.rs` of the rxml repository.  A document is modelled as a
`List Char`: the Rust lexers read `content.as_bytes()[i] as char`, so each
byte is one character and every position is a byte offset.  The character
classifiers below therefore spell out what the Rust `char` predicates
return on the byte range `0..=255`.

Loops in the Rust code are modelled with explicit fuel so that every
definition is executable by kernel reduction.  The result type `RRes`
distinguishes a normal return, an `Err` return, a Rust panic (an
out-of-bounds slice/index or an arithmetic underflow), and fuel
exhaustion (`hang`); call sites supply a canonical fuel that exceeds the
cursor-progress bound of each loop, so `hang` can only arise from a loop
with no terminating run.
-/

/-- Rust `char::is_whitespace` on the byte range `0..=255`
(the `White_Space` code points below 256). -/
def rustIsWhitespace (ch : Char) : Bool :=
  ch.toNat == 9 || ch.toNat == 10 || ch.toNat == 11 || ch.toNat == 12 ||
  ch.toNat == 13 || ch.toNat == 32 || ch.toNat == 0x85 || ch.toNat == 0xA0

/-- Rust `char::is_alphabetic` on the byte range `0..=255`. -/
def rustIsAlphabetic (ch : Char) : Bool :=
  (65 ≤ ch.toNat && ch.toNat ≤ 90) || (97 ≤ ch.toNat && ch.toNat ≤ 122) ||
  ch.toNat == 0xAA || ch.toNat == 0xB5 || ch.toNat == 0xBA ||
  (0xC0 ≤ ch.toNat && ch.toNat ≤ 0xD6) || (0xD8 ≤ ch.toNat && ch.toNat ≤ 0xF6) ||
  (0xF8 ≤ ch.toNat && ch.toNat ≤ 0xFF)

/-- Rust `char::is_numeric` on the byte range `0..=255` (ASCII digits plus
the `No` code points `² ³ ¹ ¼ ½ ¾`). -/
def rustIsNumeric (ch : Char) : Bool :=
  (48 ≤ ch.toNat && ch.toNat ≤ 57) || ch.toNat == 0xB2 || ch.toNat == 0xB3 ||
  ch.toNat == 0xB9 || ch.toNat == 0xBC || ch.toNat == 0xBD || ch.toNat == 0xBE

/-- Rust `char::is_alphanumeric` = `is_alphabetic || is_numeric`. -/
def rustIsAlphanumeric (ch : Char) : Bool :=
  rustIsAlphabetic ch || rustIsNumeric ch

/-- The guard starting an identifier token: `is_alphabetic() || == '_'`
(src/parsetag.rs line 103). -/
def identStartChar (ch : Char) : Bool :=
  rustIsAlphabetic ch || ch.toNat == 95

/-- The guard continuing an identifier token: `is_alphanumeric() || == '_'`
(src/parsetag.rs line 104). -/
def identContChar (ch : Char) : Bool :=
  rustIsAlphanumeric ch || ch.toNat == 95

/-- The shape of an identifier token: a starting character per
`identStartChar` followed by continuation characters per `identContChar`. -/
def isIdentB : List Char → Bool
  | [] => false
  | a :: t => identStartChar a && t.all identContChar

/-- `TagLexer::current` / `XMLLexer::current`: the byte at the cursor, or
`'\0'` when the cursor is at or past the end. -/
def currentChar (c : List Char) (pos : Nat) : Char :=
  c.getD pos (Char.ofNat 0)

/-- The Rust slice `&content[a..b]` (for the in-range slices the lexers take). -/
def sliceChars (c : List Char) (a b : Nat) : List Char :=
  (c.drop a).take (b - a)

/-- Result of running a fallible Rust routine: a normal return, an `Err`
return, a Rust panic (out-of-bounds slice/index or arithmetic underflow),
or fuel exhaustion of a loop that need not terminate. -/
inductive RRes (ε α : Type) where
  | ok : α → RRes ε α
  | err : ε → RRes ε α
  | panic : RRes ε α
  | hang : RRes ε α
deriving DecidableEq, Repr

/-- `parsetag::TokenKind`. -/
inductive TagTokenKind where
  | string
  | stringLiteral
  | equals
  | unknown
  | whitespace
  | endOfLine
  | forwardSlash
deriving DecidableEq, Repr

/-- `parsetag::TagToken`. -/
structure TagToken where
  kind : TagTokenKind
  text : List Char
  position : Nat
deriving DecidableEq, Repr

/-- `error::TagParseError`. -/
inductive TagParseError where
  | UnterminatedStringLiteral : Nat → TagParseError
  | PeekOutOfBounds : Int → Nat → Nat → TagParseError
  | NoTokenAtLocation : List Char → List Char → List Char → TagParseError
  | UnexpectedTagToken : TagParseError
  | InvalidFirstToken : TagParseError
deriving DecidableEq, Repr

/-- `parsetag::TagKind`. -/
inductive TagKind where
  | opening
  | closing
deriving DecidableEq, Repr

/-- Modelled from the spec: the `pos` field of the tag descriptor.
`src/parsedoc.rs` imports `BaseXMLTag` and constructs its parser as
`TagParser::new(tagtext, start)`, but the revision of `src/parsetag.rs`
under `src/` predates position tracking (its descriptor type carries no
position and its parser constructor takes no offset); §3 of the spec gives
the descriptor "the source byte offset where the tag began".  The
`name`/`attribs`/`kind` fields and all parsing logic below are from
`src/parsetag.rs`. -/
structure BaseXMLTag where
  name : List Char
  attribs : List (List Char × List Char)
  kind : TagKind
  pos : Nat
deriving DecidableEq, Repr

/-- `HashMap::insert` on the attribute map: replace the binding of an
existing key, otherwise add the pair. -/
def insertAttr : List (List Char × List Char) → List Char → List Char →
    List (List Char × List Char)
  | [], k, v => [(k, v)]
  | (k', v') :: rest, k, v =>
    if k' = k then (k, v) :: rest else (k', v') :: insertAttr rest k v

/-- `HashMap::get` on the attribute map. -/
def lookupAttr : List (List Char × List Char) → List Char → Option (List Char)
  | [], _ => none
  | (k', v') :: rest, k => if k' = k then some v' else lookupAttr rest k

/-- The quoted-literal loop of `TagLexer::next_token` (src/parsetag.rs
lines 88-93): `while current != quote { if end { Err } next }`.  Returns
the index of the closing quote.  `none` is fuel exhaustion (unreachable at
the canonical fuel: the cursor advances every iteration and the loop stops
once it passes the end). -/
def litLoopF (c : List Char) (q : Char) (start : Nat) :
    Nat → Nat → Option (Except TagParseError Nat)
  | _, 0 => none
  | pos, fuel + 1 =>
    if currentChar c pos = q then some (.ok pos)
    else if pos ≥ c.length then some (.error (.UnterminatedStringLiteral start))
    else litLoopF c q start (pos + 1) fuel

/-- The identifier loop of `TagLexer::next_token` (src/parsetag.rs line
104): `while !end && (alnum || '_') { next }`. -/
def identLoopF (c : List Char) : Nat → Nat → Option Nat
  | _, 0 => none
  | pos, fuel + 1 =>
    if pos ≥ c.length then some pos
    else if identContChar (currentChar c pos) then identLoopF c (pos + 1) fuel
    else some pos

/-- The unknown-token loop of `TagLexer::next_token` (src/parsetag.rs line
131): `while !current.is_whitespace() && !end { next }`. -/
def unknownLoopF (c : List Char) : Nat → Nat → Option Nat
  | _, 0 => none
  | pos, fuel + 1 =>
    if ¬ rustIsWhitespace (currentChar c pos) ∧ pos < c.length then
      unknownLoopF c (pos + 1) fuel
    else some pos

/-- `TagLexer::next_token` (src/parsetag.rs lines 68-141).  The
end-of-input branch takes the slice `&content[len-1..len-1]`, whose bounds
underflow when the content is empty: that is `.panic`. -/
def TagLexer.nextToken (c : List Char) (pos : Nat) :
    RRes TagParseError (TagToken × Nat) :=
  if pos ≥ c.length then
    if c.length = 0 then .panic
    else .ok (⟨.endOfLine, [], c.length⟩, pos)
  else if rustIsWhitespace (currentChar c pos) then
    .ok (⟨.whitespace, sliceChars c pos (pos + 1), pos⟩, pos + 1)
  else if currentChar c pos = '\'' ∨ currentChar c pos = '"' then
    match litLoopF c (currentChar c pos) pos (pos + 1) (c.length + 2) with
    | none => .hang
    | some (.error e) => .err e
    | some (.ok p) => .ok (⟨.stringLiteral, sliceChars c pos (p + 1), pos⟩, p + 1)
  else if identStartChar (currentChar c pos) then
    match identLoopF c pos (c.length + 2) with
    | none => .hang
    | some p => .ok (⟨.string, sliceChars c pos p, pos⟩, p)
  else if currentChar c pos = '=' then
    .ok (⟨.equals, sliceChars c pos (pos + 1), pos⟩, pos + 1)
  else if currentChar c pos = '/' then
    .ok (⟨.forwardSlash, sliceChars c pos (pos + 1), pos⟩, pos + 1)
  else
    match unknownLoopF c (pos + 1) (c.length + 2) with
    | none => .hang
    | some p => .ok (⟨.unknown, sliceChars c pos p, pos⟩, p)

/-- `TagParser::tokenize` (src/parsetag.rs lines 196-211): pull tokens
until `EndOfLine`, discarding `Whitespace`. -/
def tokenizeAux (c : List Char) : Nat → List TagToken → Nat →
    RRes TagParseError (List TagToken)
  | _, _, 0 => .hang
  | pos, acc, fuel + 1 =>
    match TagLexer.nextToken c pos with
    | .ok tp =>
      match tp.1.kind with
      | .endOfLine => .ok acc
      | .whitespace => tokenizeAux c tp.2 acc fuel
      | _ => tokenizeAux c tp.2 (acc ++ [tp.1]) fuel
    | .err e => .err e
    | .panic => .panic
    | .hang => .hang

/-- `TagParser::tokenize` at the canonical fuel (the cursor strictly
advances on every pushed or skipped token, so `c.length + 2` iterations
always suffice). -/
def tokenizeF (c : List Char) : RRes TagParseError (List TagToken) :=
  tokenizeAux c 0 [] (c.length + 2)

/-- A placeholder token for the guarded `Vec` index in the attribute scan;
it is only read behind a bounds check. -/
def dummyTagToken : TagToken := ⟨.unknown, [], 0⟩

/-- `TagParser::peek` (src/parsetag.rs lines 213-224): indices below 1 or
at/past the token-buffer length are out of bounds. -/
def TagParser.peek (toks : List TagToken) (contentLen : Nat) (pos : Nat)
    (offset : Int) : Except TagParseError TagToken :=
  if (pos : Int) + offset < 1 ∨ (pos : Int) + offset ≥ (toks.length : Int) then
    .error (.PeekOutOfBounds offset pos contentLen)
  else
    .ok (toks.getD ((pos : Int) + offset).toNat dummyTagToken)

/-- The attribute-scan loop of `TagParser::parse` (src/parsetag.rs lines
265-297). -/
def attrScanF (toks : List TagToken) (contentLen : Nat) :
    List (List Char × List Char) → Nat → Nat →
    RRes TagParseError (List (List Char × List Char))
  | _, _, 0 => .hang
  | attribs, pos, fuel + 1 =>
    if pos ≥ toks.length then .ok attribs
    else
      if (toks.getD pos dummyTagToken).kind = .equals then
        match TagParser.peek toks contentLen pos (-1) with
        | .error _ =>
          .err (.NoTokenAtLocation "String".data "left".data "Equals".data)
        | .ok left =>
          match TagParser.peek toks contentLen pos 1 with
          | .error _ =>
            .err (.NoTokenAtLocation "StringLiteral".data "right".data "Equals".data)
          | .ok right =>
            if left.kind = .string ∧ right.kind = .stringLiteral then
              attrScanF toks contentLen
                (insertAttr attribs left.text ((right.text.drop 1).dropLast))
                (pos + 1) fuel
            else .err .UnexpectedTagToken
      else attrScanF toks contentLen attribs (pos + 1) fuel

/-- The body of `TagParser::parse` after tokenization (src/parsetag.rs
lines 240-298).  `cur_token` indexes the token `Vec` without a bounds
check, so a missing token is `.panic`. -/
def TagParser.parseToks (contentLen : Nat) (toks : List TagToken)
    (tagPos : Nat) : RRes TagParseError BaseXMLTag :=
  match toks.get? 0 with
  | none => .panic
  | some first =>
    if first.kind = .string then
      match attrScanF toks contentLen [] 0 (toks.length + 1) with
      | .ok attribs => .ok ⟨first.text, attribs, .opening, tagPos⟩
      | .err e => .err e
      | .panic => .panic
      | .hang => .hang
    else if first.kind = .forwardSlash then
      match toks.get? 1 with
      | none => .panic
      | some second =>
        if second.kind = .string then
          match attrScanF toks contentLen [] 1 (toks.length + 1) with
          | .ok attribs => .ok ⟨second.text, attribs, .closing, tagPos⟩
          | .err e => .err e
          | .panic => .panic
          | .hang => .hang
        else .err .InvalidFirstToken
    else .err .InvalidFirstToken

/-- The constructor preprocessing of `TagParser::new` (src/parsetag.rs
lines 175-194): strip one `<`/`>` wrapper if both delimiters are present. -/
def stripAngles (c : List Char) : List Char :=
  if c.head? = some '<' ∧ c.getLast? = some '>' then (c.drop 1).dropLast else c

/-- `TagParser::parse` (src/parsetag.rs lines 238-299), as invoked by the
document lexer: `TagParser::new(tagtext, start).parse()`. -/
def TagParser.parse (content : List Char) (tagPos : Nat) :
    RRes TagParseError BaseXMLTag :=
  match tokenizeF (stripAngles content) with
  | .ok toks => TagParser.parseToks (stripAngles content).length toks tagPos
  | .err e => .err e
  | .panic => .panic
  | .hang => .hang

/-- `error::ParseError`.  (`TagErr` abbreviates the tag-level error type so
the wrapping constructor can keep its source name.) -/
abbrev TagErr := TagParseError

/-- `error::ParseError`. -/
inductive ParseError where
  | UnterminatedAngularBracket : Nat → ParseError
  | TagParseError : TagErr → ParseError
  | NoTokensToParse : ParseError
  | InvalidFirstToken : ParseError
  | UnexpectedClosingTag : List Char → List Char → Nat → ParseError
  | ClosingTagNeverOpened : List Char → Nat → ParseError
deriving DecidableEq, Repr

/-- `parsedoc::TokenKind`. -/
inductive DocTokenKind where
  | tag : BaseXMLTag → DocTokenKind
  | string : DocTokenKind
  | endOfFile : DocTokenKind
  | whitespace : DocTokenKind
deriving DecidableEq, Repr

/-- `parsedoc::DocToken`. -/
structure DocToken where
  text : List Char
  kind : DocTokenKind
  position : Nat
deriving DecidableEq, Repr

/-- Whether a document token is a `Tag` token. -/
def isTagKind : DocTokenKind → Bool
  | .tag _ => true
  | _ => false

/-- The bracket loop of `XMLLexer::next_token` (src/parsedoc.rs lines
94-99): `while current != '>' { if end { Err } next }`.  Returns the index
of the closing `>`. -/
def angleLoopF (c : List Char) (start : Nat) :
    Nat → Nat → Option (Except ParseError Nat)
  | _, 0 => none
  | pos, fuel + 1 =>
    if currentChar c pos = '>' then some (.ok pos)
    else if pos ≥ c.length then some (.error (.UnterminatedAngularBracket start))
    else angleLoopF c start (pos + 1) fuel

/-- The text-run loop of `XMLLexer::next_token` (src/parsedoc.rs lines
116-121): `while !current.is_whitespace() || end { if '<' { break } next }`.
Once the cursor is at or past the end `current` is `'\0'`, which is not
whitespace, so the condition stays true and the loop has no exit:
exhausting any fuel (`none`) marks that divergence. -/
def textRunLoopF (c : List Char) : Nat → Nat → Option Nat
  | _, 0 => none
  | pos, fuel + 1 =>
    if ¬ rustIsWhitespace (currentChar c pos) ∨ pos ≥ c.length then
      if currentChar c pos = '<' then some pos
      else textRunLoopF c (pos + 1) fuel
    else some pos

/-- `XMLLexer::next_token` (src/parsedoc.rs lines 76-128).  As in the tag
lexer, the end-of-input branch slices `&content[len-1..len-1]` and panics
on empty content. -/
def XMLLexer.nextToken (c : List Char) (pos : Nat) :
    RRes ParseError (DocToken × Nat) :=
  if pos ≥ c.length then
    if c.length = 0 then .panic
    else .ok (⟨[], .endOfFile, c.length⟩, pos)
  else if rustIsWhitespace (currentChar c pos) then
    .ok (⟨sliceChars c pos (pos + 1), .whitespace, pos⟩, pos + 1)
  else if currentChar c pos = '<' then
    match angleLoopF c pos (pos + 1) (c.length + 2) with
    | none => .hang
    | some (.error e) => .err e
    | some (.ok close) =>
      match TagParser.parse (sliceChars c pos (close + 1)) pos with
      | .ok t => .ok (⟨sliceChars c pos (close + 1), .tag t, pos⟩, close + 1)
      | .err e => .err (.TagParseError e)
      | .panic => .panic
      | .hang => .hang
  else
    match textRunLoopF c pos (c.length + 2) with
    | none => .hang
    | some p => .ok (⟨sliceChars c pos p, .string, pos⟩, p)

/-- `api::XMLTag` (`_pos`, `name`, `attributes`). -/
structure XMLTag where
  pos : Nat
  name : List Char
  attributes : List (List Char × List Char)
deriving DecidableEq, Repr

/-- `XMLTag::from(base)` (src/api.rs lines 23-29). -/
def XMLTag.fromBase (b : BaseXMLTag) : XMLTag :=
  ⟨b.pos, b.name, b.attribs⟩

/-- `api::XMLNode`: a tag, the accumulated text content, and the ordered
children. -/
inductive XMLNode where
  | mk : XMLTag → List Char → List XMLNode → XMLNode

/-- The node's tag. -/
def XMLNode.tag : XMLNode → XMLTag
  | .mk t _ _ => t

/-- The node's accumulated content buffer. -/
def XMLNode.content : XMLNode → List Char
  | .mk _ s _ => s

/-- The node's ordered children. -/
def XMLNode.children : XMLNode → List XMLNode
  | .mk _ _ l => l

/-- Append a completed child to a node's child list. -/
def appendChild : XMLNode → XMLNode → XMLNode
  | .mk t s l, child => .mk t s (l ++ [child])

/-- `XMLNode::push_content`: append a text run to the content buffer. -/
def appendContent : XMLNode → List Char → XMLNode
  | .mk t s l, txt => .mk t (s ++ txt) l

/-- Fold the open-node stack into the root node at end of parsing.  In the
Rust code each node is attached to its parent's (shared, interior-mutable)
child list the moment it is opened; in this pure model a node is attached
when it leaves the stack instead, which yields the same tree because
siblings close in the order they open.  `rootDone` holds the root once its
own closing tag has popped it. -/
def collapseAux : XMLNode → List XMLNode → XMLNode
  | n, [] => n
  | n, m :: rest => collapseAux (appendChild m n) rest

/-- Fold the whole open-node stack (top first) into the root, starting from
`collapseAux`; see `collapseStack`. -/
def collapseStack : List XMLNode → Option XMLNode → XMLNode
  | [], rootDone => rootDone.getD (.mk ⟨0, [], []⟩ [] [])
  | n :: rest, _ => collapseAux n rest

/-- The main loop of `XMLParser::parse` (src/parsedoc.rs lines 155-197).
`node_stack.last().unwrap()` on an empty stack is `.panic`. -/
def XMLParser.parseLoop (c : List Char) :
    Nat → List XMLNode → Option XMLNode → Nat → RRes ParseError XMLNode
  | _, _, _, 0 => .hang
  | pos, stack, rootDone, fuel + 1 =>
    if pos ≥ c.length then .ok (collapseStack stack rootDone)
    else
      match XMLLexer.nextToken c pos with
      | .err e => .err e
      | .panic => .panic
      | .hang => .hang
      | .ok (tok, p) =>
        match tok.kind with
        | .tag b =>
          match b.kind with
          | .opening =>
            match stack with
            | [] => .panic
            | top :: rest =>
              XMLParser.parseLoop c p
                (XMLNode.mk (XMLTag.fromBase b) [] [] :: top :: rest) rootDone fuel
          | .closing =>
            match stack with
            | [] => .err (.ClosingTagNeverOpened b.name b.pos)
            | top :: rest =>
              if top.tag.name ≠ b.name then
                .err (.UnexpectedClosingTag top.tag.name b.name top.tag.pos)
              else
                match rest with
                | [] => XMLParser.parseLoop c p [] (some top) fuel
                | parent :: rest2 =>
                  XMLParser.parseLoop c p (appendChild parent top :: rest2)
                    rootDone fuel
        | .string =>
          match stack with
          | [] => .panic
          | top :: rest =>
            XMLParser.parseLoop c p (appendContent top tok.text :: rest)
              rootDone fuel
        | .whitespace => XMLParser.parseLoop c p stack rootDone fuel
        | .endOfFile => .ok (collapseStack stack rootDone)

/-- `XMLParser::parse` (src/parsedoc.rs lines 141-199): fetch the first
token, require it to be a `Tag` token, create the root, run the loop. -/
def XMLParser.parse (c : List Char) (fuel : Nat) : RRes ParseError XMLNode :=
  match XMLLexer.nextToken c 0 with
  | .ok (tok, p) =>
    match tok.kind with
    | .tag b =>
      XMLParser.parseLoop c p [XMLNode.mk (XMLTag.fromBase b) [] []] none fuel
    | _ => .err .InvalidFirstToken
  | .err e => .err e
  | .panic => .panic
  | .hang => .hang

/-- `XMLParser::parse` at the canonical fuel (every loop iteration strictly
advances the cursor, so `c.length + 2` iterations always suffice). -/
def XMLParser.run (c : List Char) : RRes ParseError XMLNode :=
  XMLParser.parse c (c.length + 2)

/-! ## Basic list and cursor lemmas -/

theorem getD_eq_headD_drop (c : List Char) (p : Nat) (d : Char) :
    c.getD p d = (c.drop p).headD d := by
  induction c generalizing p with
  | nil => cases p <;> rfl
  | cons a t ih =>
    cases p with
    | zero => rfl
    | succ n => simp only [List.getD_cons_succ, List.drop_succ_cons]; exact ih n

theorem currentChar_of_drop {c : List Char} {p : Nat} {a : Char} {t : List Char}
    (h : c.drop p = a :: t) : currentChar c p = a := by
  rw [currentChar, getD_eq_headD_drop, h]; rfl

theorem drop_succ_of_drop {c : List Char} {p : Nat} {a : Char} {t : List Char}
    (h : c.drop p = a :: t) : c.drop (p + 1) = t := by
  have h2 := List.drop_drop 1 p c
  rw [h] at h2
  simpa using h2.symm

theorem lt_length_of_drop_cons {c : List Char} {p : Nat} {a : Char}
    {t : List Char} (h : c.drop p = a :: t) : p < c.length := by
  have h2 : (c.drop p).length = c.length - p := List.length_drop p c
  rw [h] at h2
  simp only [List.length_cons] at h2
  omega

theorem length_of_drop {c xs : List Char} {p : Nat} (h : c.drop p = xs)
    (hp : p ≤ c.length) : c.length = p + xs.length := by
  have h2 : (c.drop p).length = c.length - p := List.length_drop p c
  rw [h] at h2
  omega

theorem drop_append_of_drop {c : List Char} {p : Nat} {xs rest : List Char}
    (h : c.drop p = xs ++ rest) : c.drop (p + xs.length) = rest := by
  induction xs generalizing p with
  | nil => simpa using h
  | cons a t ih =>
    rw [List.cons_append] at h
    have h1 := drop_succ_of_drop h
    have h2 := ih h1
    rw [show p + (a :: t).length = (p + 1) + t.length by simp; omega]
    exact h2

theorem sliceChars_of_drop {c : List Char} {p : Nat} (xs : List Char)
    {rest : List Char}
    (h : c.drop p = xs ++ rest) : sliceChars c p (p + xs.length) = xs := by
  rw [sliceChars, Nat.add_sub_cancel_left, h, List.take_left]

theorem take_append_len (xs ys : List Char) (n : Nat) :
    (xs ++ ys).take (xs.length + n) = xs ++ ys.take n := by
  induction xs with
  | nil => simp
  | cons a t ih =>
    rw [List.cons_append, show (a :: t).length + n = (t.length + n) + 1 by
      simp; omega, List.take_succ_cons, ih]
    simp

/-! ## Character class facts -/

theorem ws_of_identStart {ch : Char} (h : identStartChar ch = true) :
    rustIsWhitespace ch = false := by
  rw [Bool.eq_false_iff]
  intro hw
  simp only [identStartChar, rustIsAlphabetic, rustIsWhitespace,
    Bool.or_eq_true, Bool.and_eq_true, Nat.beq_eq_true_eq,
    decide_eq_true_eq] at h hw
  omega

theorem identStart_ne_quote1 {ch : Char} (h : identStartChar ch = true) :
    ¬ ch = '\'' := fun he => by
  rw [he] at h; exact absurd h (by decide)

theorem identStart_ne_quote2 {ch : Char} (h : identStartChar ch = true) :
    ¬ ch = '"' := fun he => by
  rw [he] at h; exact absurd h (by decide)

theorem currentChar_past_end {c : List Char} {p : Nat} (h : c.length ≤ p) :
    currentChar c p = Char.ofNat 0 := by
  rw [currentChar, getD_eq_headD_drop, List.drop_eq_nil_of_le h]; rfl

/-! ## Runs of the fuelled lexer loops -/

theorem litLoopF_run {c : List Char} {q : Char} (start : Nat) :
    ∀ (v : List Char) (pos f : Nat) (rest : List Char),
    c.drop pos = v ++ q :: rest → (∀ x ∈ v, x ≠ q) →
    litLoopF c q start pos (f + v.length + 1) = some (.ok (pos + v.length)) := by
  intro v
  induction v with
  | nil =>
    intro pos f rest h hne
    have hc : currentChar c pos = q := currentChar_of_drop (by simpa using h)
    simp only [List.length_nil, Nat.add_zero, litLoopF, hc, if_pos]
  | cons a v' ih =>
    intro pos f rest h hne
    rw [List.cons_append] at h
    have hc : currentChar c pos = a := currentChar_of_drop h
    have hlt : pos < c.length := lt_length_of_drop_cons h
    have hstep : litLoopF c q start pos (f + (a :: v').length + 1) =
        litLoopF c q start (pos + 1) (f + v'.length + 1) := by
      show litLoopF c q start pos ((f + v'.length + 1) + 1) = _
      rw [litLoopF, hc, if_neg (hne a (List.mem_cons_self a v')),
        if_neg (by omega)]
    rw [hstep, ih (pos + 1) f rest (drop_succ_of_drop h)
      (fun x hx => hne x (List.mem_cons_of_mem a hx))]
    simp only [List.length_cons]
    rw [show pos + (v'.length + 1) = pos + 1 + v'.length by omega]

theorem identLoopF_run {c : List Char} :
    ∀ (id : List Char) (pos f : Nat) (rest : List Char),
    c.drop pos = id ++ rest → (∀ x ∈ id, identContChar x = true) →
    (∀ a t, rest = a :: t → identContChar a = false) →
    identLoopF c pos (f + id.length + 1) = some (pos + id.length) := by
  intro id
  induction id with
  | nil =>
    intro pos f rest h hall hstop
    simp only [List.nil_append] at h
    cases rest with
    | nil =>
      have hend : c.length ≤ pos := by
        have := List.length_drop pos c
        rw [h] at this
        simp only [List.length_nil] at this
        omega
      simp only [List.length_nil, Nat.add_zero, identLoopF, if_pos hend]
    | cons a t =>
      have hc : currentChar c pos = a := currentChar_of_drop h
      have hlt : pos < c.length := lt_length_of_drop_cons h
      simp only [List.length_nil, Nat.add_zero, identLoopF, if_neg (by omega : ¬ pos ≥ c.length),
        hc, hstop a t rfl]
      simp
  | cons a id' ih =>
    intro pos f rest h hall hstop
    rw [List.cons_append] at h
    have hc : currentChar c pos = a := currentChar_of_drop h
    have hlt : pos < c.length := lt_length_of_drop_cons h
    have hstep : identLoopF c pos (f + (a :: id').length + 1) =
        identLoopF c (pos + 1) (f + id'.length + 1) := by
      show identLoopF c pos ((f + id'.length + 1) + 1) = _
      rw [identLoopF, if_neg (by omega : ¬ pos ≥ c.length), hc,
        hall a (List.mem_cons_self a id')]
      simp
    rw [hstep, ih (pos + 1) f rest (drop_succ_of_drop h)
      (fun x hx => hall x (List.mem_cons_of_mem a hx)) hstop]
    simp only [List.length_cons]
    rw [show pos + (id'.length + 1) = pos + 1 + id'.length by omega]

theorem angleLoopF_noClose {c : List Char} (start : Nat) :
    ∀ (f p : Nat), 1 ≤ f → c.length + 1 - p ≤ f →
    (∀ j, p ≤ j → j < c.length → currentChar c j ≠ '>') →
    angleLoopF c start p f = some (.error (.UnterminatedAngularBracket start)) := by
  intro f
  induction f with
  | zero => intro p h1 _ _; omega
  | succ f ih =>
    intro p _ hf hno
    by_cases hp : p ≥ c.length
    · rw [angleLoopF, if_neg (by rw [currentChar_past_end hp]; decide), if_pos hp]
    · rw [angleLoopF, if_neg (hno p (Nat.le_refl p) (by omega)), if_neg hp]
      exact ih (p + 1) (by omega) (by omega) (fun j hj => hno j (by omega))

theorem angleLoopF_toClose {c : List Char} (start : Nat) :
    ∀ (f p j : Nat), p ≤ j → j < c.length → currentChar c j = '>' →
    (∀ i, p ≤ i → i < j → currentChar c i ≠ '>') → j + 1 - p ≤ f →
    angleLoopF c start p f = some (.ok j) := by
  intro f
  induction f with
  | zero => intro p j hpj _ _ _ hf; omega
  | succ f ih =>
    intro p j hpj hjlt hj hno hf
    by_cases hpeq : p = j
    · subst hpeq
      rw [angleLoopF, if_pos hj]
    · rw [angleLoopF, if_neg (hno p (Nat.le_refl p) (by omega)),
        if_neg (by omega : ¬ p ≥ c.length)]
      exact ih (p + 1) j (by omega) hjlt hj (fun i hi => hno i (by omega)) (by omega)

theorem tokenizeAux_mono {c : List Char} :
    ∀ (f : Nat) (pos : Nat) (acc : List TagToken) (f' : Nat),
    tokenizeAux c pos acc f ≠ .hang → f ≤ f' →
    tokenizeAux c pos acc f' = tokenizeAux c pos acc f := by
  intro f
  induction f with
  | zero => intro pos acc f' h _; exact absurd rfl h
  | succ f ih =>
    intro pos acc f' h hle
    cases f' with
    | zero => omega
    | succ f'' =>
      cases heq : TagLexer.nextToken c pos with
      | ok tp =>
        cases hk : tp.1.kind <;>
          simp only [tokenizeAux, heq, hk] at h ⊢ <;>
          first
          | rfl
          | exact ih _ _ _ h (by omega)
      | err e => simp only [tokenizeAux, heq]
      | panic => simp only [tokenizeAux, heq]
      | hang => simp only [tokenizeAux, heq]

theorem identCont_of_identStart {ch : Char} (h : identStartChar ch = true) :
    identContChar ch = true := by
  simp only [identStartChar, identContChar, rustIsAlphanumeric,
    Bool.or_eq_true] at h ⊢
  tauto

/-! ## Branch characterizations of `TagLexer::next_token` -/

theorem tagNextToken_eol {c : List Char} {pos : Nat} (hne : c ≠ [])
    (hend : c.length ≤ pos) :
    TagLexer.nextToken c pos = .ok (⟨.endOfLine, [], c.length⟩, pos) := by
  have h0 : ¬ c.length = 0 := fun h0 => hne (List.length_eq_zero.mp h0)
  rw [TagLexer.nextToken, if_pos hend, if_neg h0]

theorem tagNextToken_ws {c : List Char} {pos : Nat} {ch : Char}
    {rest : List Char} (h : c.drop pos = ch :: rest)
    (hws : rustIsWhitespace ch = true) :
    TagLexer.nextToken c pos = .ok (⟨.whitespace, [ch], pos⟩, pos + 1) := by
  have hc := currentChar_of_drop h
  have hlt := lt_length_of_drop_cons h
  have hs : sliceChars c pos (pos + 1) = [ch] :=
    sliceChars_of_drop [ch] (by simpa using h)
  rw [TagLexer.nextToken, if_neg (by omega : ¬ pos ≥ c.length)]
  simp only [hc, hws, hs, if_true]

theorem tagNextToken_string {c : List Char} {pos : Nat} {id rest : List Char}
    (h : c.drop pos = id ++ rest) (hid : isIdentB id = true)
    (hstop : ∀ a t, rest = a :: t → identContChar a = false) :
    TagLexer.nextToken c pos = .ok (⟨.string, id, pos⟩, pos + id.length) := by
  cases id with
  | nil => exact absurd hid (by simp [isIdentB])
  | cons a t =>
    have hid' : identStartChar a = true ∧ t.all identContChar = true := by
      simpa [isIdentB] using hid
    obtain ⟨hstart, hcont⟩ := hid'
    rw [List.cons_append] at h
    have hc := currentChar_of_drop h
    have hlt := lt_length_of_drop_cons h
    have hall : ∀ x ∈ a :: t, identContChar x = true := by
      intro x hx
      rcases List.mem_cons.mp hx with hx | hx
      · rw [hx]; exact identCont_of_identStart hstart
      · exact List.all_eq_true.mp hcont x hx
    have hlen : (c.drop pos).length = c.length - pos := List.length_drop pos c
    rw [h] at hlen
    simp only [List.length_cons, List.length_append] at hlen
    have hfuel : c.length + 2 = (c.length + 1 - (t.length + 1)) + (t.length + 1) + 1 := by
      omega
    have hrun : identLoopF c pos (c.length + 2) = some (pos + (t.length + 1)) := by
      rw [hfuel]
      have := identLoopF_run (a :: t) pos (c.length + 1 - (t.length + 1)) rest
        (by rw [List.cons_append]; exact h) hall hstop
      simpa using this
    have hslice : sliceChars c pos (pos + (t.length + 1)) = a :: t := by
      have := sliceChars_of_drop (a :: t)
        (by rw [List.cons_append]; exact h)
      simpa using this
    have hq1 : ¬ (currentChar c pos = '\'' ∨ currentChar c pos = '"') := by
      rw [hc]
      exact fun hor => hor.elim (identStart_ne_quote1 hstart) (identStart_ne_quote2 hstart)
    have hwsf : rustIsWhitespace (currentChar c pos) = false := by
      rw [hc]; exact ws_of_identStart hstart
    rw [TagLexer.nextToken, if_neg (by omega : ¬ pos ≥ c.length)]
    rw [if_neg (by simp [hwsf]), if_neg hq1, if_pos (by rw [hc]; exact hstart), hrun]
    simp only [hslice, List.length_cons]

theorem tagNextToken_equals {c : List Char} {pos : Nat} {rest : List Char}
    (h : c.drop pos = '=' :: rest) :
    TagLexer.nextToken c pos = .ok (⟨.equals, ['='], pos⟩, pos + 1) := by
  have hc := currentChar_of_drop h
  have hlt := lt_length_of_drop_cons h
  have hs : sliceChars c pos (pos + 1) = ['='] :=
    sliceChars_of_drop ['='] (by simpa using h)
  rw [TagLexer.nextToken, if_neg (by omega : ¬ pos ≥ c.length)]
  simp only [hc, hs]
  rw [if_neg (by decide : ¬ rustIsWhitespace '=' = true),
    if_neg (by decide : ¬ ('=' = '\'' ∨ '=' = '"')),
    if_neg (by decide : ¬ identStartChar '=' = true)]
  simp

theorem tagNextToken_slash {c : List Char} {pos : Nat} {rest : List Char}
    (h : c.drop pos = '/' :: rest) :
    TagLexer.nextToken c pos = .ok (⟨.forwardSlash, ['/'], pos⟩, pos + 1) := by
  have hc := currentChar_of_drop h
  have hlt := lt_length_of_drop_cons h
  have hs : sliceChars c pos (pos + 1) = ['/'] :=
    sliceChars_of_drop ['/'] (by simpa using h)
  rw [TagLexer.nextToken, if_neg (by omega : ¬ pos ≥ c.length)]
  simp only [hc, hs]
  rw [if_neg (by decide : ¬ rustIsWhitespace '/' = true),
    if_neg (by decide : ¬ ('/' = '\'' ∨ '/' = '"')),
    if_neg (by decide : ¬ identStartChar '/' = true),
    if_neg (by decide : ¬ '/' = '=')]
  simp

theorem tagNextToken_lit {c : List Char} {pos : Nat} {q : Char}
    {v rest : List Char} (h : c.drop pos = q :: (v ++ q :: rest))
    (hq : q = '\'' ∨ q = '"') (hnq : ∀ x ∈ v, x ≠ q) :
    TagLexer.nextToken c pos =
      .ok (⟨.stringLiteral, q :: (v ++ [q]), pos⟩, pos + v.length + 2) := by
  have hc := currentChar_of_drop h
  have hlt := lt_length_of_drop_cons h
  have hwq : rustIsWhitespace q = false := by
    rcases hq with hq | hq <;> rw [hq] <;> decide
  have hlen : (c.drop pos).length = c.length - pos := List.length_drop pos c
  rw [h] at hlen
  simp only [List.length_cons, List.length_append] at hlen
  have hrun : litLoopF c q pos (pos + 1) (c.length + 2) =
      some (.ok (pos + 1 + v.length)) := by
    rw [show c.length + 2 = (c.length + 1 - v.length) + v.length + 1 by omega]
    exact litLoopF_run pos v (pos + 1) _ rest (drop_succ_of_drop h) hnq
  have hslice : sliceChars c pos (pos + 1 + v.length + 1) = q :: (v ++ [q]) := by
    rw [sliceChars, show pos + 1 + v.length + 1 - pos = (v.length + 1) + 1 by omega,
      h, List.take_succ_cons, take_append_len v (q :: rest) 1]
    rfl
  rw [TagLexer.nextToken, if_neg (by omega : ¬ pos ≥ c.length)]
  rw [if_neg (by rw [hc]; simp [hwq]), if_pos (by rw [hc]; exact hq)]
  rw [hc, hrun]
  simp only [hslice]
  rw [show pos + 1 + v.length + 1 = pos + v.length + 2 by omega]

/-! ## Document-level lemmas -/

theorem docNextToken_eof {c : List Char} {pos : Nat} (hne : c ≠ [])
    (hend : c.length ≤ pos) :
    XMLLexer.nextToken c pos = .ok (⟨[], .endOfFile, c.length⟩, pos) := by
  have h0 : ¬ c.length = 0 := fun h0 => hne (List.length_eq_zero.mp h0)
  rw [XMLLexer.nextToken, if_pos hend, if_neg h0]

theorem angleLoopF_err_shape {c : List Char} {start : Nat} :
    ∀ (f pos : Nat) (e : ParseError),
    angleLoopF c start pos f = some (.error e) →
    e = .UnterminatedAngularBracket start := by
  intro f
  induction f with
  | zero => intro pos e h; exact absurd h (by simp [angleLoopF])
  | succ f ih =>
    intro pos e h
    rw [angleLoopF] at h
    split at h
    · exact absurd h (by simp)
    · split at h
      · simp only [Option.some.injEq, Except.error.injEq] at h
        exact h.symm
      · exact ih _ _ h

theorem docNextToken_err_shape {c : List Char} {pos : Nat} {e : ParseError}
    (h : XMLLexer.nextToken c pos = .err e) :
    (∃ n, e = .UnterminatedAngularBracket n) ∨
    (∃ te, e = .TagParseError te) := by
  rw [XMLLexer.nextToken] at h
  split at h
  · split at h <;> exact absurd h (by simp)
  · split at h
    · exact absurd h (by simp)
    · split at h
      · split at h
        · exact absurd h (by simp)
        · rename_i heq
          simp only [RRes.err.injEq] at h
          exact Or.inl ⟨pos, (h.symm ▸ angleLoopF_err_shape _ _ _ heq : _)⟩
        · split at h
          · exact absurd h (by simp)
          · rename_i te heq
            simp only [RRes.err.injEq] at h
            exact Or.inr ⟨te, h.symm⟩
          · exact absurd h (by simp)
          · exact absurd h (by simp)
      · split at h <;> exact absurd h (by simp)

theorem parseLoop_atEnd {c : List Char} {pos fuel : Nat} {stack : List XMLNode}
    {rootDone : Option XMLNode} (hend : c.length ≤ pos) :
    XMLParser.parseLoop c pos stack rootDone (fuel + 1) =
      .ok (collapseStack stack rootDone) := by
  rw [XMLParser.parseLoop, if_pos hend]

theorem parseLoop_closing_emptyStack {c : List Char} {pos fuel : Nat}
    {rootDone : Option XMLNode} {tok : DocToken} {p : Nat} {b : BaseXMLTag}
    (hlex : XMLLexer.nextToken c pos = .ok (tok, p))
    (htok : tok.kind = .tag b) (hb : b.kind = .closing)
    (hlt : pos < c.length) :
    XMLParser.parseLoop c pos [] rootDone (fuel + 1) =
      .err (.ClosingTagNeverOpened b.name b.pos) := by
  rw [XMLParser.parseLoop, if_neg (by omega : ¬ pos ≥ c.length), hlex]
  simp only [htok, hb]

theorem parseLoop_closing_mismatch {c : List Char} {pos fuel : Nat}
    {rootDone : Option XMLNode} {tok : DocToken} {p : Nat} {b : BaseXMLTag}
    {top : XMLNode} {rest : List XMLNode}
    (hlex : XMLLexer.nextToken c pos = .ok (tok, p))
    (htok : tok.kind = .tag b) (hb : b.kind = .closing)
    (hlt : pos < c.length) (hne : top.tag.name ≠ b.name) :
    XMLParser.parseLoop c pos (top :: rest) rootDone (fuel + 1) =
      .err (.UnexpectedClosingTag top.tag.name b.name top.tag.pos) := by
  rw [XMLParser.parseLoop, if_neg (by omega : ¬ pos ≥ c.length), hlex]
  simp only [htok, hb, if_pos hne]

theorem parseLoop_err_ne_NTTP {c : List Char} :
    ∀ (fuel pos : Nat) (stack : List XMLNode) (rootDone : Option XMLNode)
      (e : ParseError),
    XMLParser.parseLoop c pos stack rootDone fuel = .err e →
    e ≠ .NoTokensToParse := by
  intro fuel
  induction fuel with
  | zero =>
    intro pos stack r e h
    exact absurd h (by simp [XMLParser.parseLoop])
  | succ fuel ih =>
    intro pos stack r e h
    by_cases hend : pos ≥ c.length
    · rw [XMLParser.parseLoop, if_pos hend] at h
      exact absurd h (by simp)
    · rw [XMLParser.parseLoop, if_neg hend] at h
      cases heq : XMLLexer.nextToken c pos with
      | ok tp =>
        obtain ⟨tok, p⟩ := tp
        rw [heq] at h
        obtain ⟨ttext, tkind, tposition⟩ := tok
        cases tkind with
        | tag b =>
          obtain ⟨bname, battribs, bkind, bpos⟩ := b
          cases bkind with
          | opening =>
            cases stack with
            | nil => exact absurd h (by simp)
            | cons top rest => exact ih _ _ _ _ h
          | closing =>
            cases stack with
            | nil =>
              simp only [RRes.err.injEq] at h
              rw [← h]
              simp
            | cons top rest =>
              simp only [ne_eq] at h
              by_cases hne : top.tag.name = bname
              · rw [if_neg (not_not_intro hne)] at h
                cases rest with
                | nil => exact ih _ _ _ _ h
                | cons parent rest2 => exact ih _ _ _ _ h
              · rw [if_pos hne] at h
                simp only [RRes.err.injEq] at h
                rw [← h]
                simp
        | string =>
          cases stack with
          | nil => exact absurd h (by simp)
          | cons top rest => exact ih _ _ _ _ h
        | whitespace => exact ih _ _ _ _ h
        | endOfFile => exact absurd h (by simp)
      | err e' =>
        rw [heq] at h
        simp only [RRes.err.injEq] at h
        rcases docNextToken_err_shape heq with ⟨n, he⟩ | ⟨te, he⟩ <;>
          rw [← h, he] <;> simp
      | panic => rw [heq] at h; exact absurd h (by simp)
      | hang => rw [heq] at h; exact absurd h (by simp)

theorem parse_err_ne_NTTP {c : List Char} {fuel : Nat} {e : ParseError}
    (h : XMLParser.parse c fuel = .err e) : e ≠ .NoTokensToParse := by
  rw [XMLParser.parse] at h
  cases heq : XMLLexer.nextToken c 0 with
  | ok tp =>
    obtain ⟨tok, p⟩ := tp
    rw [heq] at h
    obtain ⟨ttext, tkind, tposition⟩ := tok
    cases tkind with
    | tag b => exact parseLoop_err_ne_NTTP _ _ _ _ _ h
    | string => simp only [RRes.err.injEq] at h; rw [← h]; simp
    | endOfFile => simp only [RRes.err.injEq] at h; rw [← h]; simp
    | whitespace => simp only [RRes.err.injEq] at h; rw [← h]; simp
  | err e' =>
    rw [heq] at h
    simp only [RRes.err.injEq] at h
    rcases docNextToken_err_shape heq with ⟨n, he⟩ | ⟨te, he⟩ <;>
      rw [← h, he] <;> simp
  | panic => rw [heq] at h; exact absurd h (by simp)
  | hang => rw [heq] at h; exact absurd h (by simp)

/-! ## Claims -/

/-- Claim C1: the claim states that every lexer/parser operation terminates
on every input, the document lexer's text-run rule in particular stopping
when the run reaches end-of-input.  The code contradicts this: the
text-run loop `while !self.current().is_whitespace() || self.end()` keeps
iterating once the cursor passes the end (`current()` is then `'\0'`,
which is not whitespace), so on input "a" the loop never exits — no amount
of fuel produces a result, and the whole document parse diverges for every
fuel. -/
theorem rxml_C1 :
    (∀ pos fuel, textRunLoopF "a".data pos fuel = none) ∧
    (∀ fuel, XMLParser.parse "a".data fuel = .hang) := by
  constructor
  · intro pos fuel
    induction fuel generalizing pos with
    | zero => rfl
    | succ fuel ih =>
      cases pos with
      | zero =>
        rw [textRunLoopF, if_pos (Or.inl (by decide)), if_neg (by decide)]
        exact ih 1
      | succ n =>
        have hcur : currentChar "a".data (n + 1) = Char.ofNat 0 :=
          currentChar_past_end (by simp)
        rw [textRunLoopF, if_pos (Or.inr (by simp)),
          if_neg (by rw [hcur]; decide)]
        exact ih (n + 2)
  · intro fuel
    rfl

/-- Claim C4: the claim states that a lexer at or past end-of-input always
returns the zero-width end token, even on the empty input, and that the
empty document and the empty tag `<>` reach this case without panicking.
The end-of-input branch does return the zero-width token for every
non-empty content, but it builds it from the slice
`&content[len-1..len-1]`, whose bounds underflow when `len = 0`: both
lexers panic on empty content, `TagParser::parse` on `<>` panics via its
(emptied) content, and the document parse of the empty string panics. -/
theorem rxml_C4 :
    (∀ pos : Nat, TagLexer.nextToken [] pos = .panic) ∧
    (∀ pos : Nat, XMLLexer.nextToken [] pos = .panic) ∧
    (∀ (c : List Char) (pos : Nat), c ≠ [] → c.length ≤ pos →
      TagLexer.nextToken c pos = .ok (⟨.endOfLine, [], c.length⟩, pos)) ∧
    (∀ (c : List Char) (pos : Nat), c ≠ [] → c.length ≤ pos →
      XMLLexer.nextToken c pos = .ok (⟨[], .endOfFile, c.length⟩, pos)) ∧
    TagParser.parse "<>".data 0 = .panic ∧
    (∀ fuel, XMLParser.parse [] fuel = .panic) := by
  refine ⟨?_, ?_, ?_, ?_, rfl, fun fuel => rfl⟩
  · intro pos
    rw [TagLexer.nextToken, if_pos (show pos ≥ [].length by simp),
      if_pos (show List.length ([] : List Char) = 0 from rfl)]
  · intro pos
    rw [XMLLexer.nextToken, if_pos (show pos ≥ [].length by simp),
      if_pos (show List.length ([] : List Char) = 0 from rfl)]
  · exact fun c pos hne hend => tagNextToken_eol hne hend
  · exact fun c pos hne hend => docNextToken_eof hne hend

/-- Witness for C4: the end-of-input branch at a concrete non-empty input. -/
theorem rxml_C4_witness :
    TagLexer.nextToken "x".data 1 = .ok (⟨.endOfLine, [], 1⟩, 1) ∧
    XMLLexer.nextToken "x".data 1 = .ok (⟨[], .endOfFile, 1⟩, 1) :=
  ⟨rxml_C4.2.2.1 "x".data 1 (by decide) (by decide),
   rxml_C4.2.2.2.1 "x".data 1 (by decide) (by decide)⟩

/-- Claim C5: when the cursor reaches end-of-input without a structural
error the parse loop returns the root (the collapsed stack) no matter how
many nodes are still open, and concretely `"<a><b>"` is accepted, yielding
root `a` with the unclosed child `b`. -/
theorem rxml_C5 :
    (∀ (c : List Char) (pos fuel : Nat) (stack : List XMLNode)
      (rootDone : Option XMLNode), c.length ≤ pos →
      XMLParser.parseLoop c pos stack rootDone (fuel + 1) =
        .ok (collapseStack stack rootDone)) ∧
    XMLParser.run "<a><b>".data =
      .ok (.mk ⟨0, "a".data, []⟩ [] [.mk ⟨3, "b".data, []⟩ [] []]) := by
  constructor
  · intro c pos fuel stack r hend
    exact parseLoop_atEnd hend
  · rfl

/-- Witness for C5: the end-of-input rule applied to a concrete two-node
open stack. -/
theorem rxml_C5_witness :
    XMLParser.parseLoop "<a><b>".data 6
      [XMLNode.mk ⟨3, "b".data, []⟩ [] [], XMLNode.mk ⟨0, "a".data, []⟩ [] []]
      none 1 =
    .ok (collapseStack
      [XMLNode.mk ⟨3, "b".data, []⟩ [] [], XMLNode.mk ⟨0, "a".data, []⟩ [] []]
      none) :=
  rxml_C5.1 "<a><b>".data 6 0 _ none (by decide)

/-- Claim C8: every `Equals` token in the attribute scan is validated
against its immediate neighbours in the already-tokenized buffer.  A
missing left neighbour (index 0 excluded as a valid left position, i.e.
scan position < 2) fails with `NoTokenAtLocation{String, left}`; a missing
right neighbour fails with `NoTokenAtLocation{StringLiteral, right}`; both
present but not exactly (`String`, `StringLiteral`) fails with
`UnexpectedTagToken`.  Concretely `<tag attr=>` fails with
`NoTokenAtLocation` naming `StringLiteral` expected on the right. -/
theorem rxml_C8 :
    (∀ (toks : List TagToken) (contentLen : Nat)
      (attribs : List (List Char × List Char)) (pos fuel : Nat),
      pos < toks.length → (toks.getD pos dummyTagToken).kind = .equals →
      pos < 2 →
      attrScanF toks contentLen attribs pos (fuel + 1) =
        .err (.NoTokenAtLocation "String".data "left".data "Equals".data)) ∧
    (∀ (toks : List TagToken) (contentLen : Nat)
      (attribs : List (List Char × List Char)) (pos fuel : Nat),
      pos < toks.length → (toks.getD pos dummyTagToken).kind = .equals →
      2 ≤ pos → toks.length ≤ pos + 1 →
      attrScanF toks contentLen attribs pos (fuel + 1) =
        .err (.NoTokenAtLocation "StringLiteral".data "right".data "Equals".data)) ∧
    (∀ (toks : List TagToken) (contentLen : Nat)
      (attribs : List (List Char × List Char)) (pos fuel : Nat),
      pos < toks.length → (toks.getD pos dummyTagToken).kind = .equals →
      2 ≤ pos → pos + 1 < toks.length →
      ¬ ((toks.getD (pos - 1) dummyTagToken).kind = .string ∧
         (toks.getD (pos + 1) dummyTagToken).kind = .stringLiteral) →
      attrScanF toks contentLen attribs pos (fuel + 1) =
        .err .UnexpectedTagToken) ∧
    TagParser.parse "<tag attr=>".data 0 =
      .err (.NoTokenAtLocation "StringLiteral".data "right".data "Equals".data) := by
  refine ⟨?_, ?_, ?_, rfl⟩
  · intro toks contentLen attribs pos fuel hlt hk hpos
    rw [attrScanF, if_neg (by omega : ¬ pos ≥ toks.length), if_pos hk,
      TagParser.peek, if_pos (Or.inl (by omega))]
  · intro toks contentLen attribs pos fuel hlt hk hpos hright
    rw [attrScanF, if_neg (by omega : ¬ pos ≥ toks.length), if_pos hk,
      TagParser.peek, if_neg (by push_neg; omega), TagParser.peek,
      if_pos (Or.inr (by omega))]
  · intro toks contentLen attribs pos fuel hlt hk hpos hright hkinds
    rw [attrScanF, if_neg (by omega : ¬ pos ≥ toks.length), if_pos hk,
      TagParser.peek, if_neg (by push_neg; omega), TagParser.peek,
      if_neg (by push_neg; omega)]
    rw [show ((pos : Int) + -1).toNat = pos - 1 by omega,
      show ((pos : Int) + 1).toNat = pos + 1 by omega]
    exact if_neg hkinds

/-- Witness for C8: a concrete `Equals` token with no right neighbour. -/
theorem rxml_C8_witness :
    attrScanF [⟨.string, "tag".data, 0⟩, ⟨.string, "attr".data, 4⟩,
      ⟨.equals, "=".data, 8⟩] 9 [] 2 1 =
    .err (.NoTokenAtLocation "StringLiteral".data "right".data "Equals".data) :=
  rxml_C8.2.1 _ 9 [] 2 0 (by decide) (by decide) (by decide) (by decide)

/-- Claim C9: the claim states that a tag whose first retained token is
`ForwardSlash` requires the next token to be a `String` (the name), and
that an absent or wrong-kind next token fails with `InvalidFirstToken`.
The wrong-kind half holds, but when the token is absent the code calls
`cur_token`, which indexes the token buffer without a bounds check: the
input `</>` panics instead of returning `InvalidFirstToken`. -/
theorem rxml_C9 :
    TagParser.parse "</>".data 0 = .panic ∧
    TagParser.parse "</=>".data 0 = .err .InvalidFirstToken ∧
    (∀ (contentLen : Nat) (toks : List TagToken) (tagPos : Nat)
      (first : TagToken), toks.get? 0 = some first →
      first.kind = .forwardSlash → toks.get? 1 = none →
      TagParser.parseToks contentLen toks tagPos = .panic) ∧
    (∀ (contentLen : Nat) (toks : List TagToken) (tagPos : Nat)
      (first second : TagToken), toks.get? 0 = some first →
      first.kind = .forwardSlash → toks.get? 1 = some second →
      second.kind ≠ .string →
      TagParser.parseToks contentLen toks tagPos = .err .InvalidFirstToken) := by
  refine ⟨rfl, rfl, ?_, ?_⟩
  · intro contentLen toks tagPos first h0 hk h1
    simp only [TagParser.parseToks, h0, hk, h1]
    simp
  · intro contentLen toks tagPos first second h0 hk h1 hk2
    simp only [TagParser.parseToks, h0, hk, h1]
    rw [if_neg hk2]
    simp

/-- Witness for C9: the missing-second-token panic on a concrete
one-token buffer. -/
theorem rxml_C9_witness :
    TagParser.parseToks 1 [⟨.forwardSlash, "/".data, 0⟩] 0 = .panic :=
  rxml_C9.2.2.1 1 [⟨.forwardSlash, "/".data, 0⟩] 0 _ rfl rfl rfl

/-- Claim C10: at a `<` the document lexer consumes through the matching
`>` (the bracket loop stops exactly at the first `>` after the `<`); if
end-of-input arrives first, lexing fails with `UnterminatedAngularBracket`
carrying the offset of the `<`, and in particular the document `<a` fails
with `UnterminatedAngularBracket 0`. -/
theorem rxml_C10 :
    (∀ (c : List Char) (pos : Nat), pos < c.length → currentChar c pos = '<' →
      (∀ j, pos < j → j < c.length → currentChar c j ≠ '>') →
      XMLLexer.nextToken c pos = .err (.UnterminatedAngularBracket pos)) ∧
    (∀ (c : List Char) (pos j : Nat), pos < j → j < c.length →
      currentChar c j = '>' → (∀ i, pos < i → i < j → currentChar c i ≠ '>') →
      angleLoopF c pos (pos + 1) (c.length + 2) = some (.ok j)) ∧
    XMLParser.run "<a".data = .err (.UnterminatedAngularBracket 0) := by
  refine ⟨?_, ?_, rfl⟩
  · intro c pos hlt hc hno
    have hws : rustIsWhitespace (currentChar c pos) = false := by
      rw [hc]; decide
    have hrun : angleLoopF c pos (pos + 1) (c.length + 2) =
        some (.error (.UnterminatedAngularBracket pos)) :=
      angleLoopF_noClose pos (c.length + 2) (pos + 1) (by omega) (by omega)
        (fun j hj hjlt => hno j (by omega) hjlt)
    rw [XMLLexer.nextToken, if_neg (by omega : ¬ pos ≥ c.length),
      if_neg (by simp [hws]), if_pos hc, hrun]
  · intro c pos j hpj hjlt hj hno
    exact angleLoopF_toClose pos (c.length + 2) (pos + 1) j hpj hjlt hj
      (fun i hi1 hi2 => hno i (by omega) hi2) (by omega)

/-- Witness for C10: both rules at concrete inputs — no `>` before
end-of-input in `<a`, and the `>` of `<a>` found at index 2. -/
theorem rxml_C10_witness :
    XMLLexer.nextToken "<a".data 0 = .err (.UnterminatedAngularBracket 0) ∧
    angleLoopF "<a>".data 0 1 5 = some (.ok 2) :=
  ⟨rxml_C10.1 "<a".data 0 (by decide) (by decide)
    (fun j h1 h2 => by
      have h2' : j < 2 := h2
      have hj : j = 1 := by omega
      rw [hj]; decide),
   rxml_C10.2.1 "<a>".data 0 2 (by decide) (by decide) (by decide)
    (fun i h1 h2 => by
      have hi : i = 1 := by omega
      rw [hi]; decide)⟩

/-- Counterexample for C2 as stated: the document parser does not skip
whitespace before the first token and does not require the first `Tag`
token to be of kind `Opening`.  `</a>` (first non-whitespace token a
Closing tag) parses successfully instead of failing with
`InvalidFirstToken`, and ` <a></a>` (whose first non-whitespace token is
an Opening tag) fails with `InvalidFirstToken` instead of succeeding. -/
theorem rxml_C2_counterexample :
    XMLParser.run "</a>".data = .ok (.mk ⟨0, "a".data, []⟩ [] []) ∧
    XMLParser.run " <a></a>".data = .err .InvalidFirstToken :=
  ⟨rfl, rfl⟩

/-- Claim C2, amended: the document parser fetches the first token without
skipping whitespace and requires it to be a `Tag` token of either kind:
a `Tag` first token (Opening or Closing) starts the loop with that root,
any other first token fails with `InvalidFirstToken`, `NoTokensToParse`
is never returned, and on the empty input the lexer panics instead of
producing a token. -/
theorem rxml_C2 :
    (∀ (c : List Char) (fuel : Nat) (tok : DocToken) (p : Nat) (b : BaseXMLTag),
      XMLLexer.nextToken c 0 = .ok (tok, p) → tok.kind = .tag b →
      XMLParser.parse c fuel =
        XMLParser.parseLoop c p [XMLNode.mk (XMLTag.fromBase b) [] []] none fuel) ∧
    (∀ (c : List Char) (fuel : Nat) (tok : DocToken) (p : Nat),
      XMLLexer.nextToken c 0 = .ok (tok, p) → isTagKind tok.kind = false →
      XMLParser.parse c fuel = .err .InvalidFirstToken) ∧
    (∀ (c : List Char) (fuel : Nat) (e : ParseError),
      XMLParser.parse c fuel = .err e → e ≠ .NoTokensToParse) ∧
    (∀ fuel, XMLParser.parse [] fuel = .panic) := by
  refine ⟨?_, ?_, fun c fuel e h => parse_err_ne_NTTP h, fun fuel => rfl⟩
  · intro c fuel tok p b hlex htok
    rw [XMLParser.parse, hlex]
    simp only [htok]
  · intro c fuel tok p hlex htag
    obtain ⟨ttext, tkind, tposition⟩ := tok
    rw [XMLParser.parse, hlex]
    cases tkind with
    | tag b => simp [isTagKind] at htag
    | string => rfl
    | endOfFile => rfl
    | whitespace => rfl

/-- Witness for C2: a leading whitespace token makes the whole parse fail
with `InvalidFirstToken`. -/
theorem rxml_C2_witness :
    XMLParser.parse " x".data 5 = .err .InvalidFirstToken :=
  rxml_C2.2.1 " x".data 5 ⟨" ".data, .whitespace, 0⟩ 1 rfl rfl

/-- Counterexample for C3 as stated: for the input `</a>` the parse does
not fail with `ClosingTagNeverOpened` — the leading Closing tag is
accepted as the root and the parse succeeds. -/
theorem rxml_C3_counterexample :
    XMLParser.run "</a>".data ≠ .err (.ClosingTagNeverOpened "a".data 0) ∧
    XMLParser.run "</a>".data = .ok (.mk ⟨0, "a".data, []⟩ [] []) := by
  refine ⟨?_, rfl⟩
  rw [show XMLParser.run "</a>".data = .ok (.mk ⟨0, "a".data, []⟩ [] []) from rfl]
  simp

/-- Claim C3, amended: a Closing tag consumed as the *first* token is
accepted as the root (so `</a>` parses successfully), but inside the main
loop a Closing tag token consumed while the open-node stack is empty does
fail with `ClosingTagNeverOpened` naming the obtained tag and its
position; concretely `<a></a></b>` fails with
`ClosingTagNeverOpened{obtained: "b", position: 7}`. -/
theorem rxml_C3 :
    (∀ (c : List Char) (pos fuel : Nat) (rootDone : Option XMLNode)
      (tok : DocToken) (p : Nat) (b : BaseXMLTag),
      XMLLexer.nextToken c pos = .ok (tok, p) → tok.kind = .tag b →
      b.kind = .closing → pos < c.length →
      XMLParser.parseLoop c pos [] rootDone (fuel + 1) =
        .err (.ClosingTagNeverOpened b.name b.pos)) ∧
    XMLParser.run "<a></a></b>".data =
      .err (.ClosingTagNeverOpened "b".data 7) := by
  refine ⟨?_, rfl⟩
  exact fun c pos fuel r tok p b hlex htok hb hlt =>
    parseLoop_closing_emptyStack hlex htok hb hlt

/-- Witness for C3: the empty-stack Closing rule at a concrete lexer
state. -/
theorem rxml_C3_witness :
    XMLParser.parseLoop "</b>".data 0 [] none 3 =
      .err (.ClosingTagNeverOpened "b".data 0) :=
  rxml_C3.1 "</b>".data 0 2 none
    ⟨"</b>".data, .tag ⟨"b".data, [], .closing, 0⟩, 0⟩ 4
    ⟨"b".data, [], .closing, 0⟩ rfl rfl rfl (by decide)

/-- Claim C6: a Closing tag whose name differs from the popped node's tag
name fails with `UnexpectedClosingTag` carrying the expected (popped)
name, the obtained name and the popped node's opening position;
concretely `<a></b>` fails with
`UnexpectedClosingTag{expected: "a", obtained: "b", position: 0}`. -/
theorem rxml_C6 :
    (∀ (c : List Char) (pos fuel : Nat) (rootDone : Option XMLNode)
      (top : XMLNode) (rest : List XMLNode) (tok : DocToken) (p : Nat)
      (b : BaseXMLTag),
      XMLLexer.nextToken c pos = .ok (tok, p) → tok.kind = .tag b →
      b.kind = .closing → pos < c.length → top.tag.name ≠ b.name →
      XMLParser.parseLoop c pos (top :: rest) rootDone (fuel + 1) =
        .err (.UnexpectedClosingTag top.tag.name b.name top.tag.pos)) ∧
    XMLParser.run "<a></b>".data =
      .err (.UnexpectedClosingTag "a".data "b".data 0) := by
  refine ⟨?_, rfl⟩
  exact fun c pos fuel r top rest tok p b hlex htok hb hlt hne =>
    parseLoop_closing_mismatch hlex htok hb hlt hne

/-- Witness for C6: the name-mismatch rule at a concrete lexer state and
stack. -/
theorem rxml_C6_witness :
    XMLParser.parseLoop "</b>".data 0
      [XMLNode.mk ⟨5, "a".data, []⟩ [] []] none 3 =
      .err (.UnexpectedClosingTag "a".data "b".data 5) :=
  rxml_C6.1 "</b>".data 0 2 none (XMLNode.mk ⟨5, "a".data, []⟩ [] []) []
    ⟨"</b>".data, .tag ⟨"b".data, [], .closing, 0⟩, 0⟩ 4
    ⟨"b".data, [], .closing, 0⟩ rfl rfl rfl (by decide) (by decide)

/-! ## Tokenize steps -/

theorem tokenizeAux_step_push {c : List Char} {pos p fuel : Nat} {t : TagToken}
    {acc : List TagToken}
    (h : TagLexer.nextToken c pos = .ok (t, p))
    (h1 : t.kind ≠ .endOfLine) (h2 : t.kind ≠ .whitespace) :
    tokenizeAux c pos acc (fuel + 1) = tokenizeAux c p (acc ++ [t]) fuel := by
  rw [tokenizeAux, h]
  obtain ⟨k, txt, ps⟩ := t
  cases k <;> simp_all

theorem tokenizeAux_step_ws {c : List Char} {pos p fuel : Nat} {t : TagToken}
    {acc : List TagToken}
    (h : TagLexer.nextToken c pos = .ok (t, p)) (h3 : t.kind = .whitespace) :
    tokenizeAux c pos acc (fuel + 1) = tokenizeAux c p acc fuel := by
  rw [tokenizeAux, h]
  obtain ⟨k, txt, ps⟩ := t
  cases k <;> simp_all

theorem tokenizeAux_step_eol {c : List Char} {pos p fuel : Nat} {t : TagToken}
    {acc : List TagToken}
    (h : TagLexer.nextToken c pos = .ok (t, p)) (h3 : t.kind = .endOfLine) :
    tokenizeAux c pos acc (fuel + 1) = .ok acc := by
  rw [tokenizeAux, h]
  obtain ⟨k, txt, ps⟩ := t
  cases k <;> simp_all

theorem stripAngles_wrap (xs : List Char) :
    stripAngles ('<' :: (xs ++ ['>'])) = xs := by
  rw [stripAngles, if_pos]
  · show (xs ++ ['>']).dropLast = xs
    exact List.dropLast_concat
  · constructor
    · rfl
    · rw [show ('<' :: (xs ++ ['>'])) = ('<' :: xs) ++ ['>'] by simp,
        List.getLast?_concat]

theorem tokenizeF_c7 {name k1 v1 k2 v2 : List Char}
    (hn : isIdentB name = true) (hk1 : isIdentB k1 = true)
    (hk2 : isIdentB k2 = true) (hv1 : '\'' ∉ v1) (hv2 : '"' ∉ v2) :
    tokenizeF (name ++ ' ' :: (k1 ++ '=' :: '\'' ::
      (v1 ++ '\'' :: ' ' :: (k2 ++ '=' :: '"' :: (v2 ++ ['"']))))) =
    .ok [⟨.string, name, 0⟩,
         ⟨.string, k1, name.length + 1⟩,
         ⟨.equals, ['='], name.length + 1 + k1.length⟩,
         ⟨.stringLiteral, '\'' :: (v1 ++ ['\'']), name.length + 1 + k1.length + 1⟩,
         ⟨.string, k2, name.length + 1 + k1.length + 1 + v1.length + 2 + 1⟩,
         ⟨.equals, ['='],
           name.length + 1 + k1.length + 1 + v1.length + 2 + 1 + k2.length⟩,
         ⟨.stringLiteral, '"' :: (v2 ++ ['"']),
           name.length + 1 + k1.length + 1 + v1.length + 2 + 1 + k2.length + 1⟩] := by
  set c : List Char := name ++ ' ' :: (k1 ++ '=' :: '\'' ::
    (v1 ++ '\'' :: ' ' :: (k2 ++ '=' :: '"' :: (v2 ++ ['"'])))) with hc
  have hd0 : c.drop 0 = name ++ ' ' :: (k1 ++ '=' :: '\'' ::
      (v1 ++ '\'' :: ' ' :: (k2 ++ '=' :: '"' :: (v2 ++ ['"'])))) := by rw [hc]; rfl
  have s1 := tagNextToken_string hd0 hn (fun a t h => by cases h; decide)
  rw [Nat.zero_add] at s1
  have hd1 : c.drop name.length = ' ' :: (k1 ++ '=' :: '\'' ::
      (v1 ++ '\'' :: ' ' :: (k2 ++ '=' :: '"' :: (v2 ++ ['"'])))) := by
    have := drop_append_of_drop hd0
    rwa [Nat.zero_add] at this
  have s2 := tagNextToken_ws hd1 (by decide)
  have hd2 : c.drop (name.length + 1) = k1 ++ '=' :: '\'' ::
      (v1 ++ '\'' :: ' ' :: (k2 ++ '=' :: '"' :: (v2 ++ ['"']))) :=
    drop_succ_of_drop hd1
  have s3 := tagNextToken_string hd2 hk1 (fun a t h => by cases h; decide)
  have hd3 : c.drop (name.length + 1 + k1.length) = '=' :: '\'' ::
      (v1 ++ '\'' :: ' ' :: (k2 ++ '=' :: '"' :: (v2 ++ ['"']))) :=
    drop_append_of_drop hd2
  have s4 := tagNextToken_equals hd3
  have hd4 : c.drop (name.length + 1 + k1.length + 1) = '\'' ::
      (v1 ++ '\'' :: ' ' :: (k2 ++ '=' :: '"' :: (v2 ++ ['"']))) :=
    drop_succ_of_drop hd3
  have s5 := tagNextToken_lit hd4 (Or.inl rfl) (fun x hx he => hv1 (he ▸ hx))
  have hd4a : c.drop (name.length + 1 + k1.length + 1 + 1) =
      v1 ++ '\'' :: ' ' :: (k2 ++ '=' :: '"' :: (v2 ++ ['"'])) :=
    drop_succ_of_drop hd4
  have hd4b : c.drop (name.length + 1 + k1.length + 1 + 1 + v1.length) =
      '\'' :: ' ' :: (k2 ++ '=' :: '"' :: (v2 ++ ['"'])) :=
    drop_append_of_drop hd4a
  have hd5 : c.drop (name.length + 1 + k1.length + 1 + 1 + v1.length + 1) =
      ' ' :: (k2 ++ '=' :: '"' :: (v2 ++ ['"'])) := drop_succ_of_drop hd4b
  rw [show name.length + 1 + k1.length + 1 + 1 + v1.length + 1 =
    name.length + 1 + k1.length + 1 + v1.length + 2 by omega] at hd5
  have s6 := tagNextToken_ws hd5 (by decide)
  have hd6 : c.drop (name.length + 1 + k1.length + 1 + v1.length + 2 + 1) =
      k2 ++ '=' :: '"' :: (v2 ++ ['"']) := drop_succ_of_drop hd5
  have s7 := tagNextToken_string hd6 hk2 (fun a t h => by cases h; decide)
  have hd7 : c.drop (name.length + 1 + k1.length + 1 + v1.length + 2 + 1
      + k2.length) = '=' :: '"' :: (v2 ++ ['"']) := drop_append_of_drop hd6
  have s8 := tagNextToken_equals hd7
  have hd8 : c.drop (name.length + 1 + k1.length + 1 + v1.length + 2 + 1
      + k2.length + 1) = '"' :: (v2 ++ ['"']) := drop_succ_of_drop hd7
  have s9 := tagNextToken_lit hd8 (Or.inr rfl) (fun x hx he => hv2 (he ▸ hx))
  have hd8a : c.drop (name.length + 1 + k1.length + 1 + v1.length + 2 + 1
      + k2.length + 1 + 1) = v2 ++ ['"'] := drop_succ_of_drop hd8
  have hd8b : c.drop (name.length + 1 + k1.length + 1 + v1.length + 2 + 1
      + k2.length + 1 + 1 + v2.length) = ['"'] := drop_append_of_drop hd8a
  have hd9 : c.drop (name.length + 1 + k1.length + 1 + v1.length + 2 + 1
      + k2.length + 1 + 1 + v2.length + 1) = [] := drop_succ_of_drop hd8b
  rw [show name.length + 1 + k1.length + 1 + v1.length + 2 + 1 + k2.length + 1 + 1
      + v2.length + 1 =
    name.length + 1 + k1.length + 1 + v1.length + 2 + 1 + k2.length + 1
      + v2.length + 2 by omega] at hd9
  have hcne : c ≠ [] := by
    cases name with
    | nil => exact absurd hn (by simp [isIdentB])
    | cons a t => rw [hc]; simp
  have hend : c.length ≤ name.length + 1 + k1.length + 1 + v1.length + 2 + 1
      + k2.length + 1 + v2.length + 2 := by
    have hl := List.length_drop (name.length + 1 + k1.length + 1 + v1.length + 2 + 1
      + k2.length + 1 + v2.length + 2) c
    rw [hd9] at hl
    simp only [List.length_nil] at hl
    omega
  have s10 := tagNextToken_eol hcne hend
  have t10 : ∀ f, tokenizeAux c 0 [] (f + 10) =
      .ok [⟨.string, name, 0⟩,
           ⟨.string, k1, name.length + 1⟩,
           ⟨.equals, ['='], name.length + 1 + k1.length⟩,
           ⟨.stringLiteral, '\'' :: (v1 ++ ['\'']), name.length + 1 + k1.length + 1⟩,
           ⟨.string, k2, name.length + 1 + k1.length + 1 + v1.length + 2 + 1⟩,
           ⟨.equals, ['='],
             name.length + 1 + k1.length + 1 + v1.length + 2 + 1 + k2.length⟩,
           ⟨.stringLiteral, '"' :: (v2 ++ ['"']),
             name.length + 1 + k1.length + 1 + v1.length + 2 + 1 + k2.length + 1⟩] := by
    intro f
    calc tokenizeAux c 0 [] (f + 10)
        = tokenizeAux c name.length [⟨.string, name, 0⟩] (f + 9) :=
          tokenizeAux_step_push s1 (by simp) (by simp)
      _ = tokenizeAux c (name.length + 1) [⟨.string, name, 0⟩] (f + 8) :=
          tokenizeAux_step_ws s2 rfl
      _ = tokenizeAux c (name.length + 1 + k1.length)
            [⟨.string, name, 0⟩, ⟨.string, k1, name.length + 1⟩] (f + 7) :=
          tokenizeAux_step_push s3 (by simp) (by simp)
      _ = tokenizeAux c (name.length + 1 + k1.length + 1)
            [⟨.string, name, 0⟩, ⟨.string, k1, name.length + 1⟩,
             ⟨.equals, ['='], name.length + 1 + k1.length⟩] (f + 6) :=
          tokenizeAux_step_push s4 (by simp) (by simp)
      _ = tokenizeAux c (name.length + 1 + k1.length + 1 + v1.length + 2)
            [⟨.string, name, 0⟩, ⟨.string, k1, name.length + 1⟩,
             ⟨.equals, ['='], name.length + 1 + k1.length⟩,
             ⟨.stringLiteral, '\'' :: (v1 ++ ['\'']),
               name.length + 1 + k1.length + 1⟩] (f + 5) :=
          tokenizeAux_step_push s5 (by simp) (by simp)
      _ = tokenizeAux c (name.length + 1 + k1.length + 1 + v1.length + 2 + 1)
            [⟨.string, name, 0⟩, ⟨.string, k1, name.length + 1⟩,
             ⟨.equals, ['='], name.length + 1 + k1.length⟩,
             ⟨.stringLiteral, '\'' :: (v1 ++ ['\'']),
               name.length + 1 + k1.length + 1⟩] (f + 4) :=
          tokenizeAux_step_ws s6 rfl
      _ = tokenizeAux c (name.length + 1 + k1.length + 1 + v1.length + 2 + 1
              + k2.length)
            [⟨.string, name, 0⟩, ⟨.string, k1, name.length + 1⟩,
             ⟨.equals, ['='], name.length + 1 + k1.length⟩,
             ⟨.stringLiteral, '\'' :: (v1 ++ ['\'']),
               name.length + 1 + k1.length + 1⟩,
             ⟨.string, k2, name.length + 1 + k1.length + 1 + v1.length + 2 + 1⟩]
            (f + 3) :=
          tokenizeAux_step_push s7 (by simp) (by simp)
      _ = tokenizeAux c (name.length + 1 + k1.length + 1 + v1.length + 2 + 1
              + k2.length + 1)
            [⟨.string, name, 0⟩, ⟨.string, k1, name.length + 1⟩,
             ⟨.equals, ['='], name.length + 1 + k1.length⟩,
             ⟨.stringLiteral, '\'' :: (v1 ++ ['\'']),
               name.length + 1 + k1.length + 1⟩,
             ⟨.string, k2, name.length + 1 + k1.length + 1 + v1.length + 2 + 1⟩,
             ⟨.equals, ['='],
               name.length + 1 + k1.length + 1 + v1.length + 2 + 1 + k2.length⟩]
            (f + 2) :=
          tokenizeAux_step_push s8 (by simp) (by simp)
      _ = tokenizeAux c (name.length + 1 + k1.length + 1 + v1.length + 2 + 1
              + k2.length + 1 + v2.length + 2)
            [⟨.string, name, 0⟩, ⟨.string, k1, name.length + 1⟩,
             ⟨.equals, ['='], name.length + 1 + k1.length⟩,
             ⟨.stringLiteral, '\'' :: (v1 ++ ['\'']),
               name.length + 1 + k1.length + 1⟩,
             ⟨.string, k2, name.length + 1 + k1.length + 1 + v1.length + 2 + 1⟩,
             ⟨.equals, ['='],
               name.length + 1 + k1.length + 1 + v1.length + 2 + 1 + k2.length⟩,
             ⟨.stringLiteral, '"' :: (v2 ++ ['"']),
               name.length + 1 + k1.length + 1 + v1.length + 2 + 1 + k2.length + 1⟩]
            (f + 1) :=
          tokenizeAux_step_push s9 (by simp) (by simp)
      _ = _ := tokenizeAux_step_eol s10 rfl
  have hclen : c.length = name.length + k1.length + v1.length + k2.length
      + v2.length + 8 := by
    rw [hc]
    simp [List.length_append]
    omega
  have hne10 : tokenizeAux c 0 [] 10 ≠ .hang := by
    have h := t10 0
    norm_num at h
    rw [h]
    simp
  have hmono := tokenizeAux_mono 10 0 [] (c.length + 2) hne10 (by omega)
  have h := t10 0
  norm_num at h
  calc tokenizeF c = tokenizeAux c 0 [] (c.length + 2) := rfl
    _ = tokenizeAux c 0 [] 10 := hmono
    _ = _ := h

theorem parseToks_c7 {clen tagP p1 p2 p3 p4 p5 p6 p7 : Nat}
    {name k1 v1 k2 v2 : List Char} :
    TagParser.parseToks clen
      [⟨.string, name, p1⟩, ⟨.string, k1, p2⟩, ⟨.equals, ['='], p3⟩,
       ⟨.stringLiteral, '\'' :: (v1 ++ ['\'']), p4⟩, ⟨.string, k2, p5⟩,
       ⟨.equals, ['='], p6⟩, ⟨.stringLiteral, '"' :: (v2 ++ ['"']), p7⟩] tagP =
    .ok ⟨name, insertAttr (insertAttr [] k1 v1) k2 v2, .opening, tagP⟩ := by
  have hscan : attrScanF
      [⟨.string, name, p1⟩, ⟨.string, k1, p2⟩, ⟨.equals, ['='], p3⟩,
       ⟨.stringLiteral, '\'' :: (v1 ++ ['\'']), p4⟩, ⟨.string, k2, p5⟩,
       ⟨.equals, ['='], p6⟩, ⟨.stringLiteral, '"' :: (v2 ++ ['"']), p7⟩]
      clen [] 0 8 =
      .ok (insertAttr (insertAttr [] k1
        ((('\'' :: (v1 ++ ['\''])).drop 1).dropLast)) k2
        ((('"' :: (v2 ++ ['"'])).drop 1).dropLast)) := rfl
  have h1 : ((('\'' :: (v1 ++ ['\''])).drop 1).dropLast) = v1 := by
    show (v1 ++ ['\'']).dropLast = v1
    exact List.dropLast_concat
  have h2 : ((('"' :: (v2 ++ ['"'])).drop 1).dropLast) = v2 := by
    show (v2 ++ ['"']).dropLast = v2
    exact List.dropLast_concat
  rw [h1, h2] at hscan
  rw [show TagParser.parseToks clen
      [⟨.string, name, p1⟩, ⟨.string, k1, p2⟩, ⟨.equals, ['='], p3⟩,
       ⟨.stringLiteral, '\'' :: (v1 ++ ['\'']), p4⟩, ⟨.string, k2, p5⟩,
       ⟨.equals, ['='], p6⟩, ⟨.stringLiteral, '"' :: (v2 ++ ['"']), p7⟩] tagP =
    (match attrScanF
      [⟨.string, name, p1⟩, ⟨.string, k1, p2⟩, ⟨.equals, ['='], p3⟩,
       ⟨.stringLiteral, '\'' :: (v1 ++ ['\'']), p4⟩, ⟨.string, k2, p5⟩,
       ⟨.equals, ['='], p6⟩, ⟨.stringLiteral, '"' :: (v2 ++ ['"']), p7⟩]
      clen [] 0 8 with
    | .ok attribs => RRes.ok ⟨name, attribs, .opening, tagP⟩
    | .err e => .err e
    | .panic => .panic
    | .hang => .hang) from rfl, hscan]

/-- Claim C7: parsing a tag of the form `<name k1='v1' k2="v2">` yields a
descriptor whose name is `name` and whose attributes map `k1` to `v1` and
`k2` to `v2` with the surrounding quotes stripped, regardless of quote
style; when the two keys coincide, the later pair wins. -/
theorem rxml_C7 (name k1 v1 k2 v2 : List Char) (tagP : Nat)
    (hn : isIdentB name = true) (hk1 : isIdentB k1 = true)
    (hk2 : isIdentB k2 = true) (hv1 : '\'' ∉ v1) (hv2 : '"' ∉ v2) :
    TagParser.parse ('<' :: ((name ++ ' ' :: (k1 ++ '=' :: '\'' ::
      (v1 ++ '\'' :: ' ' :: (k2 ++ '=' :: '"' :: (v2 ++ ['"']))))) ++ ['>'])) tagP =
      .ok ⟨name, insertAttr (insertAttr [] k1 v1) k2 v2, .opening, tagP⟩ ∧
    (k1 ≠ k2 →
      lookupAttr (insertAttr (insertAttr [] k1 v1) k2 v2) k1 = some v1 ∧
      lookupAttr (insertAttr (insertAttr [] k1 v1) k2 v2) k2 = some v2) ∧
    (k1 = k2 → insertAttr (insertAttr [] k1 v1) k2 v2 = [(k2, v2)]) := by
  refine ⟨?_, ?_, ?_⟩
  · rw [TagParser.parse, stripAngles_wrap, tokenizeF_c7 hn hk1 hk2 hv1 hv2]
    exact parseToks_c7
  · intro hne
    constructor <;> simp [insertAttr, lookupAttr, hne]
  · intro heq
    subst heq
    simp [insertAttr]

/-- Witness for C7: the concrete tag `<person name='John' age="55">`. -/
theorem rxml_C7_witness :
    TagParser.parse "<person name='John' age=\"55\">".data 0 =
      .ok ⟨"person".data,
        insertAttr (insertAttr [] "name".data "John".data) "age".data "55".data,
        .opening, 0⟩ :=
  (rxml_C7 "person".data "name".data "John".data "age".data "55".data 0
    (by decide) (by decide) (by decide) (by decide) (by decide)).1
